import Mathlib

/-!
Verification of the Model Evaluation panel (plugins/panels/model_evaluation.py).

The Python source is shallowly embedded: numpy arrays of labels become
`List String`, confidences/IoUs become `List (Option ℚ)`, Python dicts become
association lists, and handler side effects (store writes, panel data writes,
notifications) become explicit effect values.  Machine floats are modelled by
`ℚ`; the claims under study concern which entries are aggregated and when a
null is produced, not float rounding.
-/

namespace ModelEvaluation

open List (Perm)
open scoped List

/-! ## Embedded definitions -/

/-- `STATUS_LABELS` from the panel source: maps status codes to display labels. -/
def STATUS_LABELS : List (String × String) :=
  [("needs_review", "needs review"), ("in_review", "in review"), ("reviewed", "reviewed")]

/-- `EVALUATION_TYPES_WITH_CONFIDENCE` from the panel source. -/
def EVALUATION_TYPES_WITH_CONFIDENCE : List String := ["detection", "classification"]

/-- `EVALUATION_TYPES_WITH_IOU` from the panel source. -/
def EVALUATION_TYPES_WITH_IOU : List String := ["detection"]

/-- `SUPPORTED_EVALUATION_TYPES` from the panel source. -/
def SUPPORTED_EVALUATION_TYPES : List String := ["classification", "detection", "segmentation"]

/-- The `EvaluationResultsView` adapter: per-item ground-truth labels, predicted
labels, optional confidences and IoUs, the class list, and the missing sentinel. -/
structure EvalResults where
  classes : List String
  ytrue : List String
  ypred : List String
  confs : List (Option ℚ)
  ious : List (Option ℚ)
  missing : String
deriving DecidableEq

/-- Label at index `i` of a label sequence (with a default for out of range,
which never occurs under the length invariants used in the theorems). -/
def labelAt (l : List String) (i : ℕ) : String := l.getD i ""

/-- `EvaluationPanel.get_tp_fp_fn`.  The outer `Option` models the `ValueError`
Python raises when `results.classes` does not unpack into exactly two labels in
the binary-classification branch; every other path returns a value.  Elementwise
numpy comparisons over the equal-length `ytrue`/`ypred` arrays are modelled by
counting over their zip. -/
def get_tp_fp_fn (etype emethod : String) (r : EvalResults) :
    Option (Option ℕ × Option ℕ × Option ℕ) :=
  if etype = "classification" ∧ emethod = "binary" then
    match r.classes with
    | [_negLabel, posLabel] =>
      let pairs := r.ytrue.zip r.ypred
      some (some (pairs.countP fun q => decide (q.1 = posLabel ∧ q.2 = posLabel)),
            some (pairs.countP fun q => decide (q.1 ≠ posLabel ∧ q.2 = posLabel)),
            some (pairs.countP fun q => decide (q.1 = posLabel ∧ q.2 ≠ posLabel)))
    | _ => none
  else if etype = "detection" then
    some (some ((r.ytrue.zip r.ypred).countP fun q => decide (q.1 = q.2)),
          some (r.ytrue.countP fun t => decide (t = r.missing)),
          some (r.ypred.countP fun p => decide (p = r.missing)))
  else
    some (none, none, none)

/-- Filter expressions built by `load_view` over the query-expression collaborator
(`ViewField` comparisons): field equality, conjunction, disjunction, and a
filtered-label-count comparison (`F(root).length() > n`). -/
inductive FExpr where
  | feq (field : String) (value : String)
  | conj (a b : FExpr)
  | disj (a b : FExpr)
  | lenGt (field : String) (n : ℕ)
deriving DecidableEq

/-- Dataset views built by `load_view`: the evaluation view plus chained
`filter_labels` and `match` stages. -/
inductive DView where
  | evalView (evalKey : String)
  | filterLabels (base : DView) (field : String) (expr : FExpr) (onlyMatches : Bool)
  | matchStage (base : DView) (expr : FExpr)
deriving DecidableEq

/-- The `view_type == "matrix"` branch of `load_view` for detection evaluations:
an if / else-if / else chain keyed on whether the selected cell's y (ground-truth
axis) or x (prediction axis) equals the missing sentinel. -/
def load_view_detection_matrix (evalKey gtField predField gtRoot predRoot x y missing : String) :
    DView :=
  if y = missing then
    DView.filterLabels (DView.evalView evalKey) predField
      (FExpr.conj (FExpr.feq "label" x) (FExpr.feq evalKey "fp")) true
  else if x = missing then
    DView.filterLabels (DView.evalView evalKey) gtField
      (FExpr.conj (FExpr.feq "label" y) (FExpr.feq evalKey "fn")) true
  else
    DView.matchStage
      (DView.filterLabels
        (DView.filterLabels (DView.evalView evalKey) gtField (FExpr.feq "label" y) false)
        predField (FExpr.feq "label" x) false)
      (FExpr.conj (FExpr.lenGt gtRoot 0) (FExpr.lenGt predRoot 0))

/-- A pending-evaluation record: the evaluation key plus, for delegated runs,
the job document id. -/
structure PendingEntry where
  evalKey : String
  docId : Option String
deriving DecidableEq

/-- `load_pending_evaluations`, for one dataset: partitions the stored pending
list into dropped entries (whose key now appears in the dataset's evaluation
keys) and kept ones, synthesizes a pending entry for each evaluation key that
has no results yet, writes the kept list back iff anything was dropped, and
publishes kept-then-synthesized.  Returns (published list, optional store
write). -/
def load_pending_evaluations (stored : List PendingEntry) (evalKeys : List String)
    (hasResults : String → Bool) : List PendingEntry × Option (List PendingEntry) :=
  let kept := stored.filter fun p => decide (p.evalKey ∉ evalKeys)
  let updateStore := stored.any fun p => decide (p.evalKey ∈ evalKeys)
  let synthesized := (evalKeys.filter fun k => !hasResults k).map fun k => PendingEntry.mk k none
  (kept ++ synthesized, if updateStore then some kept else none)

/-- A payload published by `load_evaluation` under a panel data key. -/
inductive EvalPanelData where
  | unsupportedError (info : String)
  | bundle (b : String)
  | cachedData (d : String)
deriving DecidableEq

/-- `load_evaluation`, with the collaborators abstracted: `cached` is the
store's answer for the evaluation id, `serializedInfo` stands for
`info.serialize()` and `computedBundle` for the metrics bundle the supported
path assembles from `load_evaluation_results`.  The result is the (data key,
payload) pair published via `ctx.panel.set_data` plus a flag recording whether
`load_evaluation_results` was invoked. -/
def load_evaluation (enableCaching : Bool) (cached : Option EvalPanelData)
    (key etype serializedInfo computedBundle : String) : (String × EvalPanelData) × Bool :=
  let evaluationData := if enableCaching then cached else none
  match evaluationData with
  | some d => ((s!"evaluation_{key}", d), false)
  | none =>
    if etype ∈ SUPPORTED_EVALUATION_TYPES then
      ((s!"evaluation_{key}", EvalPanelData.bundle computedBundle), true)
    else
      ((s!"evaluation_{key}_error", EvalPanelData.unsupportedError serializedInfo), false)

/-- An observable side effect of the `set_status` handler. -/
inductive PanelEffect where
  | storeSetStatuses (statuses : List (String × String))
  | setDataStatuses (statuses : List (String × String))
  | notifyUser (message : String) (variant : String)
deriving DecidableEq

/-- Python dict assignment `d[k] = v` on an association list: replace the first
binding of `k` in place, else append. -/
def dictSet : List (String × String) → String → String → List (String × String)
  | [], k, v => [(k, v)]
  | p :: m, k, v => if p.1 = k then (k, v) :: m else p :: dictSet m k v

/-- `set_status`: permission check, then store/panel-data updates, then the
success notification.  The message interpolates `STATUS_LABELS[status]`, which
in Python raises a `KeyError` when `status` is not one of the three known
codes; the Boolean in the result records that uncaught exception, which occurs
after the two writes (they are ordered before the notify call). -/
def set_status (canEditStatus : Bool) (status : String) (statuses : List (String × String))
    (evalId : String) : List PanelEffect × Bool :=
  if canEditStatus = false then
    ([PanelEffect.notifyUser
        "You do not have permission to update the status of this evaluation" "error"], false)
  else
    let statuses2 := dictSet statuses evalId status
    match STATUS_LABELS.lookup status with
    | some label =>
        ([PanelEffect.storeSetStatuses statuses2,
          PanelEffect.setDataStatuses statuses2,
          PanelEffect.notifyUser (s!"Status updated to {label} successfully!") "success"],
         false)
    | none =>
        ([PanelEffect.storeSetStatuses statuses2, PanelEffect.setDataStatuses statuses2], true)

/-- One class's entry of the classification report consumed by
`get_per_class_metrics` (`results.report()`); absent keys are `none`. -/
structure ReportEntry where
  precision : Option ℚ
  recallScore : Option ℚ
  f1score : Option ℚ
  support : Option ℚ
deriving DecidableEq

/-- One class's per-class metrics dict; a `none` field models an absent key. -/
structure ClassMetrics where
  confidence : Option ℚ
  iou : Option ℚ
  precision : Option ℚ
  recallScore : Option ℚ
  f1score : Option ℚ
  support : Option ℚ
deriving DecidableEq

/-- `compute_avg_confs` for one class: over the zip of predictions and
confidences, sum the confidences of predictions of that class (a `None`
confidence contributes 0.0 but is still counted) and divide by their number,
or 0.0 when the class received no predictions. -/
def compute_avg_confs (r : EvalResults) (c : String) : ℚ :=
  let entries := (r.ypred.zip r.confs).filter fun q => decide (q.1 = c)
  if 0 < entries.length then (entries.map fun q => q.2.getD 0).sum / entries.length else 0

/-- `compute_avg_ious` for one class, same shape as `compute_avg_confs` but
over the IoU sequence. -/
def compute_avg_ious (r : EvalResults) (c : String) : ℚ :=
  let entries := (r.ypred.zip r.ious).filter fun q => decide (q.1 = c)
  if 0 < entries.length then (entries.map fun q => q.2.getD 0).sum / entries.length else 0

/-- `get_per_class_metrics`: one entry per class; confidence is present exactly
when the evaluation type is in `EVALUATION_TYPES_WITH_CONFIDENCE`, iou exactly
when it is in `EVALUATION_TYPES_WITH_IOU`, and precision/recall/f1-score/support
are copied from the report when present there.  (The source guards on the
truthiness of the `avg_confs` dict, which, inside the loop over a class list
that is then necessarily non-empty, is equivalent to the type test.) -/
def get_per_class_metrics (etype : String) (r : EvalResults)
    (report : List (String × ReportEntry)) : List (String × ClassMetrics) :=
  r.classes.map fun c =>
    let rep := (report.lookup c).getD (ReportEntry.mk none none none none)
    (c, { confidence := if etype ∈ EVALUATION_TYPES_WITH_CONFIDENCE
                        then some (compute_avg_confs r c) else none
          iou := if etype ∈ EVALUATION_TYPES_WITH_IOU
                 then some (compute_avg_ious r c) else none
          precision := rep.precision
          recallScore := rep.recallScore
          f1score := rep.f1score
          support := rep.support })

/-- `get_avg_confidence`: iterates over all per-class metric entries, counting
every class but summing only the confidences that are present, and returns
total / count unless there are no classes at all. -/
def get_avg_confidence (pcm : List (String × ClassMetrics)) : Option ℚ :=
  let count := pcm.length
  let total := (pcm.map fun p => p.2.confidence.getD 0).sum
  if 0 < count then some (total / count) else none

/-- Accumulator step for collecting Python dict keys in first-occurrence order. -/
def dedupStep (acc : List String) (a : String) : List String :=
  if a ∈ acc then acc else acc ++ [a]

/-- The keys of `Counter(l)` in Python: the distinct elements of `l` in order
of first occurrence. -/
def firstOccurrences (l : List String) : List String := l.foldl dedupStep []

/-- The key list of the ground-truth frequency table: `Counter(ytrue)` with the
missing sentinel popped.  Removing a key preserves the order of the others, so
this equals the first occurrences of the non-missing ground-truth labels. -/
def freqKeys (r : EvalResults) : List String :=
  firstOccurrences (r.ytrue.filter fun t => decide (t ≠ r.missing))

/-- `az_classes = sorted(default_classes)`: stable ascending sort. -/
def az_classes (r : EvalResults) : List String :=
  List.insertionSort (fun a b : String => a ≤ b) r.classes

/-- `za_classes = sorted(default_classes, reverse=True)`: stable descending sort. -/
def za_classes (r : EvalResults) : List String :=
  List.insertionSort (fun a b : String => b ≤ a) r.classes

/-- `mc_classes = sorted(freq, key=freq.get, reverse=True)`: the frequency-table
keys sorted by ground-truth frequency, descending.  The frequency of a key of
`Counter(ytrue)` is its count in `ytrue`. -/
def mc_classes (r : EvalResults) : List String :=
  List.insertionSort (fun a b => r.ytrue.count b ≤ r.ytrue.count a) (freqKeys r)

/-- `lc_classes = sorted(freq, key=freq.get)`: frequency ascending. -/
def lc_classes (r : EvalResults) : List String :=
  List.insertionSort (fun a b => r.ytrue.count a ≤ r.ytrue.count b) (freqKeys r)

/-- Modelled from the spec: the class axis used by
`results._confusion_matrix(..., include_missing=True)`, which is not part of
the panel source (it lives in the evaluation-results collaborator); per the
spec the matrix includes "the missing sentinel as an explicit row/column". -/
def confusionMatrixLabels (classList : List String) (missing : String) : List String :=
  if missing ∈ classList then classList else classList ++ [missing]

/-- Count of scored items with the given ground-truth and predicted labels. -/
def cellCount (r : EvalResults) (t p : String) : ℕ :=
  (r.ytrue.zip r.ypred).countP fun q => decide (q.1 = t ∧ q.2 = p)

/-- The truth × prediction count matrix over an explicit label axis
(rows = ground truth, columns = predictions). -/
def matrixOfLabels (r : EvalResults) (labels : List String) : List (List ℕ) :=
  labels.map fun t => labels.map fun p => cellCount r t p

/-- Modelled from the spec: `results._confusion_matrix(classes, include_other=False,
include_missing=True, tabulate_ids=False)` is not part of the panel source.  Per
the spec (§4.1) it computes, for the given class ordering, a count matrix over
truth × prediction including the missing sentinel as an explicit row/column and
excluding any "other" catch-all bucket, so items whose truth or prediction falls
outside the label axis are not tabulated. -/
def confusionMatrix (r : EvalResults) (classList : List String) : List (List ℕ) :=
  matrixOfLabels r (confusionMatrixLabels classList r.missing)

/-- The five matrices assembled by `get_confusion_matrices` (the colorscales and
returned class axes are omitted: the claims under study concern the matrices
and the class orderings, which are `az_classes` etc. above). -/
structure ConfusionMatricesBundle where
  default_matrix : List (List ℕ)
  az_matrix : List (List ℕ)
  za_matrix : List (List ℕ)
  mc_matrix : List (List ℕ)
  lc_matrix : List (List ℕ)
deriving DecidableEq

/-- `get_confusion_matrices`: the default ordering is `results.classes`; the
other four are the sorted orderings above. -/
def get_confusion_matrices (r : EvalResults) : ConfusionMatricesBundle :=
  { default_matrix := confusionMatrix r r.classes
    az_matrix := confusionMatrix r (az_classes r)
    za_matrix := confusionMatrix r (za_classes r)
    mc_matrix := confusionMatrix r (mc_classes r)
    lc_matrix := confusionMatrix r (lc_classes r) }

/-- The multiset of cell values of a matrix. -/
def matrixCells (m : List (List ℕ)) : Multiset ℕ := (m.flatten : Multiset ℕ)

/-- The total sum of a matrix's cells. -/
def matrixTotal (m : List (List ℕ)) : ℕ := m.flatten.sum

/-! ## Theorems -/

/-- Counting matching pairs of two equal-length label sequences equals counting
matching index positions. -/
theorem countP_zip_eq_countP_range (f : String → String → Bool) :
    ∀ (a b : List String), a.length = b.length →
      (a.zip b).countP (fun q => f q.1 q.2) =
        (List.range a.length).countP (fun i => f (labelAt a i) (labelAt b i)) := by
  intro a
  induction a with
  | nil => intro b _; simp
  | cons x xs ih =>
    intro b hb
    cases b with
    | nil => simp at hb
    | cons y ys =>
      simp only [List.length_cons, Nat.succ.injEq] at hb
      have hr : List.range (x :: xs).length = 0 :: (List.range xs.length).map Nat.succ := by
        simp [List.range_succ_eq_map]
      rw [List.zip_cons_cons, List.countP_cons, hr, List.countP_cons, List.countP_map]
      have hcongr : (List.range xs.length).countP
            ((fun i => f (labelAt (x :: xs) i) (labelAt (y :: ys) i)) ∘ Nat.succ) =
          (List.range xs.length).countP (fun i => f (labelAt xs i) (labelAt ys i)) :=
        List.countP_congr fun i _ => Iff.rfl
      rw [hcongr, ← ih ys hb]
      rfl

/-- Counting in a single label sequence equals counting matching index positions. -/
theorem countP_eq_countP_range (p : String → Bool) :
    ∀ a : List String, a.countP p = (List.range a.length).countP fun i => p (labelAt a i) := by
  intro a
  induction a with
  | nil => simp
  | cons x xs ih =>
    have hr : List.range (x :: xs).length = 0 :: (List.range xs.length).map Nat.succ := by
      simp [List.range_succ_eq_map]
    rw [List.countP_cons, hr, List.countP_cons, List.countP_map]
    have hcongr : (List.range xs.length).countP
          ((fun i => p (labelAt (x :: xs) i)) ∘ Nat.succ) =
        (List.range xs.length).countP (fun i => p (labelAt xs i)) :=
      List.countP_congr fun i _ => Iff.rfl
    rw [hcongr, ← ih]
    rfl

/-- C4: for a binary classification evaluation whose classes are exactly
`[negL, posL]`, `get_tp_fp_fn` returns tp = count of items with truth = pos and
pred = pos, fp = count with truth ≠ pos and pred = pos, and fn = count with
truth = pos and pred ≠ pos. -/
theorem binary_tp_fp_fn (etype emethod : String) (r : EvalResults) (negL posL : String)
    (ht : etype = "classification") (hm : emethod = "binary")
    (hc : r.classes = [negL, posL]) (hlen : r.ytrue.length = r.ypred.length) :
    get_tp_fp_fn etype emethod r =
      some (some ((List.range r.ytrue.length).countP fun i =>
              decide (labelAt r.ytrue i = posL ∧ labelAt r.ypred i = posL)),
            some ((List.range r.ytrue.length).countP fun i =>
              decide (labelAt r.ytrue i ≠ posL ∧ labelAt r.ypred i = posL)),
            some ((List.range r.ytrue.length).countP fun i =>
              decide (labelAt r.ytrue i = posL ∧ labelAt r.ypred i ≠ posL))) := by
  subst ht; subst hm
  have key : get_tp_fp_fn "classification" "binary" r =
      some (some ((r.ytrue.zip r.ypred).countP fun q => decide (q.1 = posL ∧ q.2 = posL)),
            some ((r.ytrue.zip r.ypred).countP fun q => decide (q.1 ≠ posL ∧ q.2 = posL)),
            some ((r.ytrue.zip r.ypred).countP fun q => decide (q.1 = posL ∧ q.2 ≠ posL))) := by
    unfold get_tp_fp_fn
    rw [hc]
    rfl
  have e1 : (r.ytrue.zip r.ypred).countP (fun q => decide (q.1 = posL ∧ q.2 = posL)) =
      (List.range r.ytrue.length).countP (fun i =>
        decide (labelAt r.ytrue i = posL ∧ labelAt r.ypred i = posL)) :=
    countP_zip_eq_countP_range (fun t p => decide (t = posL ∧ p = posL)) r.ytrue r.ypred hlen
  have e2 : (r.ytrue.zip r.ypred).countP (fun q => decide (q.1 ≠ posL ∧ q.2 = posL)) =
      (List.range r.ytrue.length).countP (fun i =>
        decide (labelAt r.ytrue i ≠ posL ∧ labelAt r.ypred i = posL)) :=
    countP_zip_eq_countP_range (fun t p => decide (t ≠ posL ∧ p = posL)) r.ytrue r.ypred hlen
  have e3 : (r.ytrue.zip r.ypred).countP (fun q => decide (q.1 = posL ∧ q.2 ≠ posL)) =
      (List.range r.ytrue.length).countP (fun i =>
        decide (labelAt r.ytrue i = posL ∧ labelAt r.ypred i ≠ posL)) :=
    countP_zip_eq_countP_range (fun t p => decide (t = posL ∧ p ≠ posL)) r.ytrue r.ypred hlen
  rw [key, e1, e2, e3]

/-- C4 witness: example scenario 1 of the spec, classes = [neg, pos],
ytrue = [pos, pos, neg, neg], ypred = [pos, neg, pos, neg] gives
tp = 1, fp = 1, fn = 1. -/
theorem binary_tp_fp_fn_witness :
    get_tp_fp_fn "classification" "binary"
        (EvalResults.mk ["neg", "pos"] ["pos", "pos", "neg", "neg"]
          ["pos", "neg", "pos", "neg"] [] [] "(none)") =
      some (some 1, some 1, some 1) := by
  rw [binary_tp_fp_fn "classification" "binary"
        (EvalResults.mk ["neg", "pos"] ["pos", "pos", "neg", "neg"]
          ["pos", "neg", "pos", "neg"] [] [] "(none)") "neg" "pos" rfl rfl rfl rfl]
  decide

/-- A detection evaluation item whose truth and prediction are both the missing
sentinel is counted by `get_tp_fp_fn` as a true positive (and also as a false
positive and a false negative), contradicting the claim that tp only counts
items where truth = pred with both non-missing (which would give tp = 0 here). -/
theorem detection_tp_counterexample :
    get_tp_fp_fn "detection" "coco"
        (EvalResults.mk [] ["(none)"] ["(none)"] [] [] "(none)") =
      some (some 1, some 1, some 1) ∧
    ((EvalResults.mk [] ["(none)"] ["(none)"] [] [] "(none)").ytrue.zip
        (EvalResults.mk [] ["(none)"] ["(none)"] [] [] "(none)").ypred).countP
      (fun q => decide (q.1 = q.2 ∧ q.1 ≠ "(none)" ∧ q.2 ≠ "(none)")) = 0 := by
  exact ⟨rfl, rfl⟩

/-- C5 (amended): for a detection evaluation, `get_tp_fp_fn` returns
tp = count of items where truth = pred (with no non-missing restriction:
an item whose two sides are both the missing sentinel is also counted),
fp = count of items where truth is the missing sentinel, and fn = count of
items where pred is the missing sentinel; for any type other than
classification or detection it returns nulls. -/
theorem detection_tp_fp_fn_amended (etype emethod : String) (r : EvalResults)
    (hlen : r.ytrue.length = r.ypred.length) :
    (etype = "detection" →
      get_tp_fp_fn etype emethod r =
        some (some ((List.range r.ytrue.length).countP fun i =>
                decide (labelAt r.ytrue i = labelAt r.ypred i)),
              some ((List.range r.ytrue.length).countP fun i =>
                decide (labelAt r.ytrue i = r.missing)),
              some ((List.range r.ypred.length).countP fun i =>
                decide (labelAt r.ypred i = r.missing)))) ∧
    (etype ≠ "classification" → etype ≠ "detection" →
      get_tp_fp_fn etype emethod r = some (none, none, none)) := by
  constructor
  · intro ht
    subst ht
    have key : get_tp_fp_fn "detection" emethod r =
        some (some ((r.ytrue.zip r.ypred).countP fun q => decide (q.1 = q.2)),
              some (r.ytrue.countP fun t => decide (t = r.missing)),
              some (r.ypred.countP fun p => decide (p = r.missing))) := by
      unfold get_tp_fp_fn
      rw [if_neg (by simp)]
      rfl
    have e1 : (r.ytrue.zip r.ypred).countP (fun q => decide (q.1 = q.2)) =
        (List.range r.ytrue.length).countP (fun i =>
          decide (labelAt r.ytrue i = labelAt r.ypred i)) :=
      countP_zip_eq_countP_range (fun t p => decide (t = p)) r.ytrue r.ypred hlen
    have e2 : r.ytrue.countP (fun t => decide (t = r.missing)) =
        (List.range r.ytrue.length).countP (fun i => decide (labelAt r.ytrue i = r.missing)) :=
      countP_eq_countP_range (fun t => decide (t = r.missing)) r.ytrue
    have e3 : r.ypred.countP (fun p => decide (p = r.missing)) =
        (List.range r.ypred.length).countP (fun i => decide (labelAt r.ypred i = r.missing)) :=
      countP_eq_countP_range (fun p => decide (p = r.missing)) r.ypred
    rw [key, e1, e2, e3]
  · intro h1 h2
    unfold get_tp_fp_fn
    rw [if_neg (by simp [h1]), if_neg h2]

/-- C5 witness: example scenario 2 of the spec, ytrue = [cat, missing, dog],
ypred = [cat, dog, missing] gives tp = 1, fp = 1, fn = 1. -/
theorem detection_tp_fp_fn_witness :
    get_tp_fp_fn "detection" "coco"
        (EvalResults.mk [] ["cat", "(none)", "dog"] ["cat", "dog", "(none)"] [] [] "(none)") =
      some (some 1, some 1, some 1) := by
  rw [(detection_tp_fp_fn_amended "detection" "coco"
        (EvalResults.mk [] ["cat", "(none)", "dog"] ["cat", "dog", "(none)"] [] [] "(none)")
        rfl).1 rfl]
  decide

/-- Two counts whose indicator functions sum pointwise to a third count's
indicator add up to that third count. -/
theorem countP_add_countP {α : Type} (p q s : α → Bool) :
    ∀ l : List α, (∀ a ∈ l,
        ((if p a then 1 else 0) + (if q a then 1 else 0) : ℕ) = (if s a then 1 else 0)) →
      l.countP p + l.countP q = l.countP s := by
  intro l
  induction l with
  | nil => intro _; simp
  | cons x xs ih =>
    intro h
    rw [List.countP_cons, List.countP_cons, List.countP_cons]
    have hx := h x (List.mem_cons_self x xs)
    have hrec := ih fun a ha => h a (List.mem_cons_of_mem x ha)
    omega

/-- Counting the first components of a zip of equal-length lists equals counting
in the first list. -/
theorem countP_fst_zip (p : String → Bool) :
    ∀ (a b : List String), a.length = b.length →
      (a.zip b).countP (fun q => p q.1) = a.countP p := by
  intro a
  induction a with
  | nil => intro b _; simp
  | cons x xs ih =>
    intro b hb
    cases b with
    | nil => simp at hb
    | cons y ys =>
      simp only [List.length_cons, Nat.succ.injEq] at hb
      rw [List.zip_cons_cons, List.countP_cons, List.countP_cons, ih ys hb]

/-- Counting the second components of a zip of equal-length lists equals counting
in the second list. -/
theorem countP_snd_zip (p : String → Bool) :
    ∀ (a b : List String), a.length = b.length →
      (a.zip b).countP (fun q => p q.2) = b.countP p := by
  intro a
  induction a with
  | nil =>
    intro b hb
    cases b with
    | nil => simp
    | cons y ys => simp at hb
  | cons x xs ih =>
    intro b hb
    cases b with
    | nil => simp at hb
    | cons y ys =>
      simp only [List.length_cons, Nat.succ.injEq] at hb
      rw [List.zip_cons_cons, List.countP_cons, List.countP_cons, ih ys hb]

/-- C6: for a detection evaluation in which every (truth, pred) item is exactly
one of a match (truth = pred, both non-missing), an unmatched prediction
(truth missing, pred non-missing) or an unmatched ground truth (pred missing,
truth non-missing), the computed tp + fp equals the number of predictions
(items with non-missing pred) and tp + fn equals the number of ground-truth
objects (items with non-missing truth). -/
theorem detection_counts_partition (emethod : String) (r : EvalResults)
    (hlen : r.ytrue.length = r.ypred.length)
    (hcases : ∀ q ∈ r.ytrue.zip r.ypred,
      (q.1 = q.2 ∧ q.1 ≠ r.missing ∧ q.2 ≠ r.missing) ∨
      (q.1 = r.missing ∧ q.2 ≠ r.missing) ∨
      (q.2 = r.missing ∧ q.1 ≠ r.missing))
    (tp fp fn : ℕ)
    (hout : get_tp_fp_fn "detection" emethod r = some (some tp, some fp, some fn)) :
    tp + fp = r.ypred.countP (fun p => decide (p ≠ r.missing)) ∧
    tp + fn = r.ytrue.countP (fun t => decide (t ≠ r.missing)) := by
  have key : get_tp_fp_fn "detection" emethod r =
      some (some ((r.ytrue.zip r.ypred).countP fun q => decide (q.1 = q.2)),
            some (r.ytrue.countP fun t => decide (t = r.missing)),
            some (r.ypred.countP fun p => decide (p = r.missing))) := by
    unfold get_tp_fp_fn
    rw [if_neg (by simp)]
    rfl
  rw [key] at hout
  simp only [Option.some.injEq, Prod.mk.injEq] at hout
  obtain ⟨htp, hfp, hfn⟩ := hout
  have hfp2 : r.ytrue.countP (fun t => decide (t = r.missing)) =
      (r.ytrue.zip r.ypred).countP (fun q => decide (q.1 = r.missing)) :=
    (countP_fst_zip (fun t => decide (t = r.missing)) r.ytrue r.ypred hlen).symm
  have hfn2 : r.ypred.countP (fun t => decide (t = r.missing)) =
      (r.ytrue.zip r.ypred).countP (fun q => decide (q.2 = r.missing)) :=
    (countP_snd_zip (fun t => decide (t = r.missing)) r.ytrue r.ypred hlen).symm
  have hpred : r.ypred.countP (fun p => decide (p ≠ r.missing)) =
      (r.ytrue.zip r.ypred).countP (fun q => decide (q.2 ≠ r.missing)) :=
    (countP_snd_zip (fun p => decide (p ≠ r.missing)) r.ytrue r.ypred hlen).symm
  have htrue : r.ytrue.countP (fun t => decide (t ≠ r.missing)) =
      (r.ytrue.zip r.ypred).countP (fun q => decide (q.1 ≠ r.missing)) :=
    (countP_fst_zip (fun t => decide (t ≠ r.missing)) r.ytrue r.ypred hlen).symm
  constructor
  · rw [hpred, ← htp, ← hfp, hfp2]
    apply countP_add_countP
    intro a ha
    rcases hcases a ha with ⟨h1, h2, h3⟩ | ⟨h1, h2⟩ | ⟨h1, h2⟩
    · simp [h1, h2, h3]
    · have hne : a.1 ≠ a.2 := by rw [h1]; exact fun hh => h2 hh.symm
      have hne2 : ¬(r.missing = a.2) := fun hh => h2 hh.symm
      simp [hne, h1, h2, hne2]
    · have hne : a.1 ≠ a.2 := by rw [h1]; exact h2
      simp [hne, h1, h2]
  · rw [htrue, ← htp, ← hfn, hfn2]
    apply countP_add_countP
    intro a ha
    rcases hcases a ha with ⟨h1, h2, h3⟩ | ⟨h1, h2⟩ | ⟨h1, h2⟩
    · simp [h1, h2, h3]
    · have hne : a.1 ≠ a.2 := by rw [h1]; exact fun hh => h2 hh.symm
      have hne2 : ¬(r.missing = a.2) := fun hh => h2 hh.symm
      simp [hne, h1, h2, hne2]
    · have hne : a.1 ≠ a.2 := by rw [h1]; exact h2
      simp [hne, h1, h2]

/-- C6 witness: on example scenario 2 (one match, one unmatched prediction, one
unmatched ground truth), tp + fp = 2 = number of predictions. -/
theorem detection_counts_partition_witness :
    get_tp_fp_fn "detection" "coco"
        (EvalResults.mk [] ["cat", "(none)", "dog"] ["cat", "dog", "(none)"] [] [] "(none)") =
      some (some 1, some 1, some 1) ∧
    (1 + 1 : ℕ) =
      (EvalResults.mk [] ["cat", "(none)", "dog"] ["cat", "dog", "(none)"] [] [] "(none)").ypred.countP
        (fun p => decide (p ≠ "(none)")) := by
  refine ⟨by decide, ?_⟩
  exact (detection_counts_partition "coco"
    (EvalResults.mk [] ["cat", "(none)", "dog"] ["cat", "dog", "(none)"] [] [] "(none)")
    rfl (by decide) 1 1 1 (by decide)).1

/-- C7: compiling a detection confusion-matrix drill-down with y = missing
sentinel yields a filter on the predictions field selecting labels with
label = x and evaluation field = "fp"; with x = missing (and y not missing,
since the spec's clauses form an if / else-if chain and the y-clause is tested
first) it yields a filter on the ground-truth field selecting labels with
label = y and evaluation field = "fn". -/
theorem detection_matrix_drilldown
    (evalKey gtField predField gtRoot predRoot x y missing : String) :
    (y = missing →
      load_view_detection_matrix evalKey gtField predField gtRoot predRoot x y missing =
        DView.filterLabels (DView.evalView evalKey) predField
          (FExpr.conj (FExpr.feq "label" x) (FExpr.feq evalKey "fp")) true) ∧
    (y ≠ missing → x = missing →
      load_view_detection_matrix evalKey gtField predField gtRoot predRoot x y missing =
        DView.filterLabels (DView.evalView evalKey) gtField
          (FExpr.conj (FExpr.feq "label" y) (FExpr.feq evalKey "fn")) true) := by
  constructor
  · intro hy
    rw [load_view_detection_matrix, if_pos hy]
  · intro hy hx
    rw [load_view_detection_matrix, if_neg hy, if_pos hx]

/-- C7 witness: example scenario 3 of the spec, x = "dog" and y = missing
sentinel selects predicted-label = "dog" AND evaluation-field = "fp". -/
theorem detection_matrix_drilldown_witness :
    load_view_detection_matrix "eval_a" "ground_truth" "predictions"
        "ground_truth.detections" "predictions.detections" "dog" "(none)" "(none)" =
      DView.filterLabels (DView.evalView "eval_a") "predictions"
        (FExpr.conj (FExpr.feq "label" "dog") (FExpr.feq "eval_a" "fp")) true :=
  (detection_matrix_drilldown "eval_a" "ground_truth" "predictions"
    "ground_truth.detections" "predictions.detections" "dog" "(none)" "(none)").1 rfl

/-- C8: reconciling twice in a row, with the second call reading whatever the
first call left in the store and with unchanged evaluation keys and has-results
answers, publishes identical lists both times and performs no store write on
the second call; a first-call write can only happen when at least one stored
entry was dropped (its key materialized among the evaluation keys). -/
theorem pending_reconcile_idempotent (stored : List PendingEntry) (evalKeys : List String)
    (hasResults : String → Bool) :
    ((load_pending_evaluations
        ((load_pending_evaluations stored evalKeys hasResults).2.getD stored)
        evalKeys hasResults).1 =
      (load_pending_evaluations stored evalKeys hasResults).1) ∧
    ((load_pending_evaluations
        ((load_pending_evaluations stored evalKeys hasResults).2.getD stored)
        evalKeys hasResults).2 = none) ∧
    ((load_pending_evaluations stored evalKeys hasResults).2 ≠ none →
      ∃ p ∈ stored, p.evalKey ∈ evalKeys) := by
  unfold load_pending_evaluations
  simp only
  by_cases h : (stored.any fun p => decide (p.evalKey ∈ evalKeys)) = true
  · rw [if_pos h]
    simp only [Option.getD_some]
    have hkept : ((stored.filter fun p => decide (p.evalKey ∉ evalKeys)).filter
          fun p => decide (p.evalKey ∉ evalKeys)) =
        stored.filter fun p => decide (p.evalKey ∉ evalKeys) := by
      rw [List.filter_filter]
      apply List.filter_congr
      intro a _
      simp
    have hany : ((stored.filter fun p => decide (p.evalKey ∉ evalKeys)).any
          fun p => decide (p.evalKey ∈ evalKeys)) = false := by
      rw [Bool.eq_false_iff]
      intro hcon
      rw [List.any_eq_true] at hcon
      obtain ⟨p, hp, hpin⟩ := hcon
      rw [List.mem_filter] at hp
      simp only [decide_eq_true_eq] at hp hpin
      exact hp.2 hpin
    rw [hkept, hany]
    refine ⟨rfl, rfl, fun _ => ?_⟩
    rw [List.any_eq_true] at h
    obtain ⟨p, hp, hpin⟩ := h
    simp only [decide_eq_true_eq] at hpin
    exact ⟨p, hp, hpin⟩
  · simp [h]

/-- C8 witness: with one stored entry whose key has materialized and one that
has not, the first reconcile writes (a dropped entry exists). -/
theorem pending_reconcile_idempotent_witness :
    (load_pending_evaluations [PendingEntry.mk "done" none, PendingEntry.mk "wip" none]
        ["done"] (fun k => k == "done")).2 ≠ none ∧
    ∃ p ∈ [PendingEntry.mk "done" none, PendingEntry.mk "wip" none], p.evalKey ∈ ["done"] := by
  refine ⟨by decide, ?_⟩
  exact (pending_reconcile_idempotent
    [PendingEntry.mk "done" none, PendingEntry.mk "wip" none] ["done"]
    (fun k => k == "done")).2.2 (by decide)

/-- C9: for an evaluation whose type is unsupported and whose id has no cached
bundle, `load_evaluation` publishes {error: "unsupported", info: serialized
info} under the key `evaluation_<key>_error` and never calls
`load_evaluation_results` (and, being a total function here, raises nothing:
the unsupported case is data, not an exception). -/
theorem load_evaluation_unsupported (enableCaching : Bool) (cached : Option EvalPanelData)
    (key etype serializedInfo computedBundle : String)
    (hcache : cached = none) (htype : etype ∉ SUPPORTED_EVALUATION_TYPES) :
    load_evaluation enableCaching cached key etype serializedInfo computedBundle =
      ((s!"evaluation_{key}_error", EvalPanelData.unsupportedError serializedInfo), false) := by
  subst hcache
  unfold load_evaluation
  cases enableCaching <;> simp [htype]

/-- C9 witness: example scenario 4 of the spec, an unsupported type
"regression" with an empty cache. -/
theorem load_evaluation_unsupported_witness :
    ("regression" ∉ SUPPORTED_EVALUATION_TYPES) ∧
    load_evaluation true none "eval_r" "regression" "serialized-info" "bundle" =
      (("evaluation_eval_r_error", EvalPanelData.unsupportedError "serialized-info"), false) := by
  refine ⟨by decide, ?_⟩
  exact load_evaluation_unsupported true none "eval_r" "regression" "serialized-info" "bundle"
    rfl (by decide)

/-- Looking up the key just assigned by a Python-style dict assignment yields
the assigned value. -/
theorem dictSet_lookup (m : List (String × String)) (k v : String) :
    (dictSet m k v).lookup k = some v := by
  induction m with
  | nil => simp [dictSet, List.lookup]
  | cons p m ih =>
    by_cases h : p.1 = k
    · simp [dictSet, h, List.lookup]
    · simp only [dictSet, if_neg h]
      rw [List.lookup_cons]
      have : (k == p.1) = false := by
        simp only [beq_eq_false_iff_ne, ne_eq]
        exact fun hh => h hh.symm
      rw [this]
      exact ih

/-- A run of `set_status` with edit permission and the unknown status value
"bogus" ends in an uncaught `KeyError` (the raised flag is true), refuting the
claim that `set_status` completes without an uncaught exception for every
input. -/
theorem set_status_keyerror_counterexample :
    (set_status true "bogus" [] "eval-id-1").2 = true := by
  rfl

/-- C10 (amended): `set_status` with permission denied emits only the error
notification and performs no store mutation; with permission and a status value
among the three known codes it writes the updated statuses map (in which the
evaluation id now maps to the new status) to the store and panel data and
notifies success, raising nothing; with permission and an unrecognized status
value it still performs both writes but then raises an uncaught `KeyError`
while formatting the success message. -/
theorem set_status_amended (canEdit : Bool) (status : String)
    (statuses : List (String × String)) (evalId : String) :
    (canEdit = false →
      set_status canEdit status statuses evalId =
        ([PanelEffect.notifyUser
            "You do not have permission to update the status of this evaluation" "error"],
         false)) ∧
    (canEdit = true → ∀ label, STATUS_LABELS.lookup status = some label →
      set_status canEdit status statuses evalId =
        ([PanelEffect.storeSetStatuses (dictSet statuses evalId status),
          PanelEffect.setDataStatuses (dictSet statuses evalId status),
          PanelEffect.notifyUser (s!"Status updated to {label} successfully!") "success"],
         false) ∧
      (dictSet statuses evalId status).lookup evalId = some status) ∧
    (canEdit = true → STATUS_LABELS.lookup status = none →
      set_status canEdit status statuses evalId =
        ([PanelEffect.storeSetStatuses (dictSet statuses evalId status),
          PanelEffect.setDataStatuses (dictSet statuses evalId status)], true)) := by
  refine ⟨fun hc => ?_, fun hc label hl => ?_, fun hc hl => ?_⟩
  · subst hc; rfl
  · subst hc
    constructor
    · unfold set_status
      rw [if_neg (by simp)]
      simp only [hl]
    · exact dictSet_lookup statuses evalId status
  · subst hc
    unfold set_status
    rw [if_neg (by simp)]
    simp only [hl]

/-- C10 witness: with permission and the known status "reviewed" on an empty
map, the store and panel data receive the singleton map and the success
notification fires without an exception. -/
theorem set_status_amended_witness :
    set_status true "reviewed" [] "eval-id-1" =
      ([PanelEffect.storeSetStatuses [("eval-id-1", "reviewed")],
        PanelEffect.setDataStatuses [("eval-id-1", "reviewed")],
        PanelEffect.notifyUser "Status updated to reviewed successfully!" "success"],
       false) ∧
    (dictSet [] "eval-id-1" "reviewed").lookup "eval-id-1" = some "reviewed" :=
  (set_status_amended true "reviewed" [] "eval-id-1").2.1 rfl "reviewed" rfl

/-- A segmentation evaluation with one class and no computed confidences:
every per-class entry lacks a confidence, yet `get_avg_confidence` returns
0 rather than null, refuting the claim that the aggregate is null when no
class has a confidence. -/
theorem avg_confidence_counterexample :
    (get_per_class_metrics "segmentation" (EvalResults.mk ["cat"] [] [] [] [] "(none)") []).all
      (fun p => p.2.confidence = none) = true ∧
    get_avg_confidence
      (get_per_class_metrics "segmentation" (EvalResults.mk ["cat"] [] [] [] [] "(none)") []) =
      some 0 := by
  constructor
  · decide
  · have hpcm : get_per_class_metrics "segmentation"
        (EvalResults.mk ["cat"] [] [] [] [] "(none)") [] =
        [("cat", ClassMetrics.mk none none none none none none)] := by rfl
    rw [hpcm]
    simp [get_avg_confidence]

/-- Sums over option lists: defaulting absent values to 0 sums the same as
dropping them. -/
theorem sum_map_getD_eq_sum_filterMap (l : List (Option ℚ)) :
    (l.map fun o => o.getD 0).sum = (l.filterMap id).sum := by
  induction l with
  | nil => rfl
  | cons o l ih =>
    cases o with
    | none => simpa using ih
    | some v => simpa using congrArg (v + ·) ih

/-- C1 (amended): the aggregate average confidence equals the sum of the
per-class confidences that were computed divided by the TOTAL number of
classes (classes without a confidence are counted in the denominator,
contributing 0), and it is null exactly when the per-class map is empty —
in particular it is 0, not null, when classes exist but none has a
confidence. -/
theorem avg_confidence_amended (pcm : List (String × ClassMetrics)) :
    get_avg_confidence pcm =
      if pcm.length = 0 then none
      else some ((pcm.filterMap fun p => p.2.confidence).sum / pcm.length) := by
  unfold get_avg_confidence
  rcases Nat.eq_zero_or_pos pcm.length with h | h
  · rw [if_neg (by omega), if_pos h]
  · rw [if_pos h, if_neg (by omega)]
    have hsum : (pcm.map fun p => p.2.confidence.getD 0).sum =
        (pcm.filterMap fun p => p.2.confidence).sum := by
      have h1 : (pcm.map fun p => p.2.confidence.getD 0).sum =
          ((pcm.map fun p => p.2.confidence).map fun o => o.getD 0).sum := by
        rw [List.map_map]
        rfl
      have h2 : ((pcm.map fun p => p.2.confidence).filterMap id).sum =
          (pcm.filterMap fun p => p.2.confidence).sum := by
        rw [List.filterMap_map]
        rfl
      rw [h1, sum_map_getD_eq_sum_filterMap, h2]
    rw [hsum]

/-- Folding `dedupStep` preserves nodup. -/
theorem foldl_dedupStep_nodup :
    ∀ (l acc : List String), acc.Nodup → (l.foldl dedupStep acc).Nodup := by
  intro l
  induction l with
  | nil => intro acc h; exact h
  | cons a l ih =>
    intro acc h
    rw [List.foldl_cons]
    apply ih
    unfold dedupStep
    by_cases ha : a ∈ acc
    · rwa [if_pos ha]
    · rw [if_neg ha]
      exact h.append (List.nodup_singleton a)
        (fun x hx hemem => ha ((List.mem_singleton.mp hemem) ▸ hx))

/-- Membership after folding `dedupStep`: the accumulator's elements plus the
traversed ones. -/
theorem foldl_dedupStep_mem :
    ∀ (l acc : List String) (x : String), x ∈ l.foldl dedupStep acc ↔ x ∈ acc ∨ x ∈ l := by
  intro l
  induction l with
  | nil => intro acc x; simp
  | cons a l ih =>
    intro acc x
    rw [List.foldl_cons, ih]
    unfold dedupStep
    by_cases h : a ∈ acc
    · rw [if_pos h]
      simp only [List.mem_cons]
      constructor
      · rintro (hx | hx)
        · exact Or.inl hx
        · exact Or.inr (Or.inr hx)
      · rintro (hx | hx | hx)
        · exact Or.inl hx
        · exact Or.inl (hx ▸ h)
        · exact Or.inr hx
    · rw [if_neg h]
      simp only [List.mem_append, List.mem_singleton, List.mem_cons]
      tauto

/-- The frequency-table keys are distinct. -/
theorem freqKeys_nodup (r : EvalResults) : (freqKeys r).Nodup :=
  foldl_dedupStep_nodup _ [] List.nodup_nil

/-- A label is a frequency-table key iff it occurs in the ground truth and is
not the missing sentinel. -/
theorem freqKeys_mem (r : EvalResults) (x : String) :
    x ∈ freqKeys r ↔ x ∈ r.ytrue ∧ x ≠ r.missing := by
  unfold freqKeys firstOccurrences
  rw [foldl_dedupStep_mem]
  simp [List.mem_filter]

/-- C3 counterexample: with classes = [a, b] but ground truth containing only
a, the az ordering is [a, b] while the mc ordering is just [a]: the mc ordering
is not a permutation of az's class set (class b, which never occurs in the
ground truth, is dropped from the frequency ranking entirely). -/
theorem class_orderings_counterexample :
    az_classes (EvalResults.mk ["a", "b"] ["a"] ["a"] [] [] "(none)") = ["a", "b"] ∧
    mc_classes (EvalResults.mk ["a", "b"] ["a"] ["a"] [] [] "(none)") = ["a"] ∧
    ¬ (mc_classes (EvalResults.mk ["a", "b"] ["a"] ["a"] [] [] "(none)") ~
        az_classes (EvalResults.mk ["a", "b"] ["a"] ["a"] [] [] "(none)")) := by
  have hab : ("a" : String) ≤ "b" := by
    rw [String.le_iff_toList_le]
    decide
  have haz : az_classes (EvalResults.mk ["a", "b"] ["a"] ["a"] [] [] "(none)") = ["a", "b"] := by
    simp [az_classes, List.insertionSort, List.orderedInsert, hab]
  refine ⟨haz, by decide, fun hp => ?_⟩
  have hlen := hp.length_eq
  rw [haz] at hlen
  have hmc : mc_classes (EvalResults.mk ["a", "b"] ["a"] ["a"] [] [] "(none)") = ["a"] := by
    decide
  rw [hmc] at hlen
  exact absurd hlen (by decide)

/-- C3 (amended): az is the class list sorted ascending; za is its exact
reverse; mc and lc are permutations of the distinct non-missing ground-truth
labels (az's class set only when every class occurs in the ground truth and no
other label does), ordered by ground-truth frequency descending respectively
ascending, with the missing sentinel excluded from the frequency ranking. -/
theorem class_orderings_amended (r : EvalResults) :
    (List.Sorted (fun a b : String => a ≤ b) (az_classes r) ∧ az_classes r ~ r.classes) ∧
    za_classes r = (az_classes r).reverse ∧
    (mc_classes r ~ freqKeys r ∧
      List.Sorted (fun a b => r.ytrue.count b ≤ r.ytrue.count a) (mc_classes r)) ∧
    (lc_classes r ~ freqKeys r ∧
      List.Sorted (fun a b => r.ytrue.count a ≤ r.ytrue.count b) (lc_classes r)) ∧
    r.missing ∉ freqKeys r ∧
    (∀ x, x ∈ freqKeys r ↔ x ∈ r.ytrue ∧ x ≠ r.missing) := by
  have s_az : List.Sorted (fun a b : String => a ≤ b) (az_classes r) :=
    List.sorted_insertionSort _ r.classes
  have p_az : az_classes r ~ r.classes := List.perm_insertionSort _ r.classes
  haveI : IsTotal String (fun a b : String => b ≤ a) := ⟨fun a b => le_total b a⟩
  haveI : IsTrans String (fun a b : String => b ≤ a) := ⟨fun _ _ _ h1 h2 => le_trans h2 h1⟩
  haveI : IsAntisymm String (fun a b : String => b ≤ a) := ⟨fun _ _ h1 h2 => le_antisymm h2 h1⟩
  have s_za : List.Sorted (fun a b : String => b ≤ a) (za_classes r) :=
    List.sorted_insertionSort _ r.classes
  have s_rev : List.Sorted (fun a b : String => b ≤ a) (az_classes r).reverse :=
    List.pairwise_reverse.mpr s_az
  have p_za : za_classes r ~ (az_classes r).reverse :=
    ((List.perm_insertionSort _ r.classes).trans p_az.symm).trans
      (az_classes r).reverse_perm.symm
  haveI : IsTotal String (fun a b => r.ytrue.count b ≤ r.ytrue.count a) :=
    ⟨fun a b => Nat.le_total (r.ytrue.count b) (r.ytrue.count a)⟩
  haveI : IsTrans String (fun a b => r.ytrue.count b ≤ r.ytrue.count a) :=
    ⟨fun _ _ _ h1 h2 => le_trans h2 h1⟩
  haveI : IsTotal String (fun a b => r.ytrue.count a ≤ r.ytrue.count b) :=
    ⟨fun a b => Nat.le_total (r.ytrue.count a) (r.ytrue.count b)⟩
  haveI : IsTrans String (fun a b => r.ytrue.count a ≤ r.ytrue.count b) :=
    ⟨fun _ _ _ h1 h2 => le_trans h1 h2⟩
  refine ⟨⟨s_az, p_az⟩, List.eq_of_perm_of_sorted p_za s_za s_rev, ?_, ?_, ?_, freqKeys_mem r⟩
  · exact ⟨List.perm_insertionSort _ _, List.sorted_insertionSort _ _⟩
  · exact ⟨List.perm_insertionSort _ _, List.sorted_insertionSort _ _⟩
  · intro h
    exact ((freqKeys_mem r r.missing).mp h).2 rfl

/-- Unfolding the cell multiset of a label-axis matrix into multiset form. -/
theorem matrixCells_ofLabels (r : EvalResults) (L : List String) :
    matrixCells (matrixOfLabels r L) =
      Multiset.bind (L : Multiset String) fun t =>
        Multiset.map (fun p => cellCount r t p) (L : Multiset String) := by
  unfold matrixCells matrixOfLabels
  rw [← List.flatMap_def, ← Multiset.coe_bind]
  rfl

/-- Permuting the label axis permutes the matrix cells but leaves their
multiset unchanged. -/
theorem matrixCells_perm (r : EvalResults) {L1 L2 : List String} (h : L1 ~ L2) :
    matrixCells (matrixOfLabels r L1) = matrixCells (matrixOfLabels r L2) := by
  rw [matrixCells_ofLabels, matrixCells_ofLabels, Multiset.coe_eq_coe.mpr h]

/-- The matrix total is the sum of its cell multiset. -/
theorem matrixTotal_eq_sum_cells (m : List (List ℕ)) :
    matrixTotal m = (matrixCells m).sum := by
  unfold matrixTotal matrixCells
  exact (Multiset.sum_coe _).symm

/-- C2 counterexample: with classes = [a, b], ytrue = [a, a], ypred = [a, b],
class b never occurs in the ground truth, so the mc ordering drops it and the
mc matrix loses the (a, b) item: the default matrix sums to 2 but the mc matrix
sums to 1, refuting equality of the five totals (and hence of the cell
multisets). -/
theorem confusion_matrices_counterexample :
    matrixTotal ((get_confusion_matrices
        (EvalResults.mk ["a", "b"] ["a", "a"] ["a", "b"] [] [] "(none)")).default_matrix) = 2 ∧
    matrixTotal ((get_confusion_matrices
        (EvalResults.mk ["a", "b"] ["a", "a"] ["a", "b"] [] [] "(none)")).mc_matrix) = 1 := by
  exact ⟨by decide, by decide⟩

/-- C2 (amended): when the class list is duplicate-free, every class occurs in
the ground truth, no class is the missing sentinel, and every non-missing
ground-truth label is a listed class, the five confusion matrices have equal
cell multisets and equal total sums (they differ only by the row/column
ordering).  Without the ground-truth coverage hypothesis the mc/lc matrices
can drop classes, as the counterexample shows. -/
theorem confusion_matrices_amended (r : EvalResults)
    (hnd : r.classes.Nodup)
    (hsup : ∀ c ∈ r.classes, c ∈ r.ytrue ∧ c ≠ r.missing)
    (hcov : ∀ t ∈ r.ytrue, t = r.missing ∨ t ∈ r.classes) :
    (matrixCells (get_confusion_matrices r).az_matrix =
        matrixCells (get_confusion_matrices r).default_matrix ∧
      matrixCells (get_confusion_matrices r).za_matrix =
        matrixCells (get_confusion_matrices r).default_matrix ∧
      matrixCells (get_confusion_matrices r).mc_matrix =
        matrixCells (get_confusion_matrices r).default_matrix ∧
      matrixCells (get_confusion_matrices r).lc_matrix =
        matrixCells (get_confusion_matrices r).default_matrix) ∧
    (matrixTotal (get_confusion_matrices r).az_matrix =
        matrixTotal (get_confusion_matrices r).default_matrix ∧
      matrixTotal (get_confusion_matrices r).za_matrix =
        matrixTotal (get_confusion_matrices r).default_matrix ∧
      matrixTotal (get_confusion_matrices r).mc_matrix =
        matrixTotal (get_confusion_matrices r).default_matrix ∧
      matrixTotal (get_confusion_matrices r).lc_matrix =
        matrixTotal (get_confusion_matrices r).default_matrix) := by
  have hmiss : r.missing ∉ r.classes := fun h => (hsup _ h).2 rfl
  have hfkmem : ∀ x, x ∈ freqKeys r ↔ x ∈ r.classes := by
    intro x
    rw [freqKeys_mem]
    constructor
    · rintro ⟨hx, hne⟩
      rcases hcov x hx with h | h
      · exact absurd h hne
      · exact h
    · intro hx
      exact hsup x hx
  have p_fk : freqKeys r ~ r.classes :=
    (List.perm_ext_iff_of_nodup (freqKeys_nodup r) hnd).mpr hfkmem
  have p_az : az_classes r ~ r.classes := List.perm_insertionSort _ r.classes
  have p_za : za_classes r ~ r.classes := List.perm_insertionSort _ r.classes
  have p_mc : mc_classes r ~ r.classes := (List.perm_insertionSort _ _).trans p_fk
  have p_lc : lc_classes r ~ r.classes := (List.perm_insertionSort _ _).trans p_fk
  have main : ∀ cl : List String, cl ~ r.classes →
      matrixCells (confusionMatrix r cl) = matrixCells (confusionMatrix r r.classes) := by
    intro cl hp
    have hm : r.missing ∉ cl := fun h => hmiss (hp.mem_iff.mp h)
    unfold confusionMatrix confusionMatrixLabels
    rw [if_neg hm, if_neg hmiss]
    exact matrixCells_perm r (hp.append_right [r.missing])
  have tot : ∀ cl : List String, cl ~ r.classes →
      matrixTotal (confusionMatrix r cl) = matrixTotal (confusionMatrix r r.classes) := by
    intro cl hp
    rw [matrixTotal_eq_sum_cells, matrixTotal_eq_sum_cells, main cl hp]
  exact ⟨⟨main _ p_az, main _ p_za, main _ p_mc, main _ p_lc⟩,
         ⟨tot _ p_az, tot _ p_za, tot _ p_mc, tot _ p_lc⟩⟩

/-- C2 witness: a concrete results view satisfying the hypotheses (classes
[b, a], ground truth [a, b], predictions [b, b]): az/default cell multisets
and totals agree. -/
theorem confusion_matrices_amended_witness :
    matrixCells ((get_confusion_matrices
        (EvalResults.mk ["b", "a"] ["a", "b"] ["b", "b"] [] [] "(none)")).az_matrix) =
      matrixCells ((get_confusion_matrices
        (EvalResults.mk ["b", "a"] ["a", "b"] ["b", "b"] [] [] "(none)")).default_matrix) ∧
    matrixTotal ((get_confusion_matrices
        (EvalResults.mk ["b", "a"] ["a", "b"] ["b", "b"] [] [] "(none)")).az_matrix) =
      matrixTotal ((get_confusion_matrices
        (EvalResults.mk ["b", "a"] ["a", "b"] ["b", "b"] [] [] "(none)")).default_matrix) := by
  have h := confusion_matrices_amended
    (EvalResults.mk ["b", "a"] ["a", "b"] ["b", "b"] [] [] "(none)")
    (by decide) (by decide) (by decide)
  exact ⟨h.1.1, h.2.1⟩

end ModelEvaluation
